import Mathlib

/-!
Shallow embedding of the support/resistance core of `src/utils/indicators.py`
(peak detection → proximity grouping → per-bucket aggregation), with Python
floats idealised as exact rationals and a Python exception modelled as
`Option.none`.
-/

set_option maxRecDepth 10000

namespace AnalyseChart

/-- Direction argument of the peak detector: `up` for maxima, `down` for minima. -/
inductive Direction
  | up
  | down
deriving DecidableEq

/-- Round-half-to-even of a rational to an integer, as Python's `round` ties rule. -/
def roundHalfEven (q : ℚ) : ℤ :=
  let f := ⌊q⌋
  if q - f < 1/2 then f
  else if q - f > 1/2 then f + 1
  else if f % 2 = 0 then f else f + 1

/-- Python `round(q, n)`: round half to even at `n` decimal digits (idealised over ℚ). -/
def roundTo (q : ℚ) (n : ℤ) : ℚ :=
  (roundHalfEven (q * (10 : ℚ) ^ n) : ℚ) / (10 : ℚ) ^ n

/-- The `data` array of `_peaks_detection`: a copy of the input, negated when
the direction is `down`. -/
def dirData (values : List ℚ) (direction : Direction) : List ℚ :=
  if direction = Direction.down then values.map (fun x => -x) else values

/-- Modelled from the spec: the inner plateau scan of the external local-extrema
search (`scipy.signal.find_peaks` is an excluded collaborator) — advance `j`
while `j < iMax` and `x[j]` still equals the plateau value `v`. -/
def plateauEnd (x : List ℚ) (iMax : ℕ) (v : ℚ) : ℕ → ℕ → ℕ
  | 0, j => j
  | fuel + 1, j => if j < iMax ∧ x.getD j 0 = v then plateauEnd x iMax v fuel (j + 1) else j

/-- Modelled from the spec: the outer scan of the external local-extrema search —
a position `i` (with `1 ≤ i < iMax`) is a candidate when `x[i-1] < x[i]`; the
following plateau of equal values must drop on its right side, and one
representative position (the plateau midpoint) is reported per plateau. -/
def lmLoop (x : List ℚ) (iMax : ℕ) : ℕ → ℕ → List ℕ
  | 0, _ => []
  | fuel + 1, i =>
    if i < iMax then
      if x.getD (i - 1) 0 < x.getD i 0 then
        let ia := plateauEnd x iMax (x.getD i 0) (fuel + 1) (i + 1)
        if x.getD ia 0 < x.getD i 0 then
          (i + ia - 1) / 2 :: lmLoop x iMax fuel (ia + 1)
        else lmLoop x iMax fuel (i + 1)
      else lmLoop x iMax fuel (i + 1)
    else []

/-- Modelled from the spec: all local-maxima positions of a sequence, one
representative per flat plateau; first and last positions are never peaks. -/
def findPeaksIdx (x : List ℚ) : List ℕ :=
  lmLoop x (x.length - 1) x.length 1

/-- Peak index positions kept by `signal.find_peaks(data, height=min(data))`:
local-maxima positions whose value is at least the minimum of the sequence
(a no-op filter on a nonempty sequence). Empty input is not reached here;
`peaks_detection` fails before this point, as `min` of an empty sequence does. -/
def peakIdx (data : List ℚ) : List ℕ :=
  match data with
  | [] => []
  | d :: ds => (findPeaksIdx (d :: ds)).filter (fun p => ds.foldl min d ≤ (d :: ds).getD p 0)

/-- Embedding of `_peaks_detection(values, rounded, direction)`.  `none` models
the `ValueError` Python's `min` raises on an empty sequence (the `height=min(data)`
argument is evaluated before `find_peaks` runs).  When `rounded` is truthy the
peak values `abs(round(data[val], rounded))` are returned; when it is falsy the
peak index positions are returned (cast to ℚ for a uniform result type). -/
def peaks_detection (values : List ℚ) (rounded : ℤ) (direction : Direction) : Option (List ℚ) :=
  match dirData values direction with
  | [] => none
  | d :: ds =>
    some (if rounded ≠ 0
      then (peakIdx (d :: ds)).map (fun p => |roundTo ((d :: ds).getD p 0) rounded|)
      else (peakIdx (d :: ds)).map (fun p => (p : ℚ)))

/-- Python's ascending stable `list.sort()`. -/
def sortAsc (l : List ℚ) : List ℚ :=
  l.insertionSort (· ≤ ·)

/-- The membership-checked insertion `if v not in il: il.append(v)` of the
grouping loop. -/
def insertIfAbsent (v : ℚ) (l : List ℚ) : List ℚ :=
  if v ∈ l then l else l ++ [v]

/-- One iteration of the grouping loop of `group_values_nearest`, acting on the
state `(il, ol)` for the adjacent sorted pair `p = (values[k-1], values[k])`:
when the pair is close, each component is appended to `il` unless already a
member; otherwise the open bucket `il` is closed into `ol` and reset. -/
def groupStep (closest : ℚ) (st : List ℚ × List (List ℚ)) (p : ℚ × ℚ) :
    List ℚ × List (List ℚ) :=
  if |p.2 - p.1| < closest then
    (insertIfAbsent p.2 (insertIfAbsent p.1 st.1), st.2)
  else
    ([], st.2 ++ [st.1])

/-- Embedding of `group_values_nearest(values, closest)` together with its side
effect: the first component is the content of the caller's list after the call
(`values.sort()` sorts the caller's list in place), the second is the returned
list of buckets (the closed buckets followed by the final open bucket). -/
def group_values_nearest_full (values : List ℚ) (closest : ℚ) :
    List ℚ × List (List ℚ) :=
  let s := sortAsc values
  let st := (s.zip s.tail).foldl (groupStep closest) ([], [])
  (s, st.2 ++ [st.1])

/-- Return value of `group_values_nearest(values, closest)`. -/
def group_values_nearest (values : List ℚ) (closest : ℚ) : List (List ℚ) :=
  (group_values_nearest_full values closest).2

/-- `statistics.mean` of a list, idealised over ℚ (only applied to buckets of
at least three members by the aggregator). -/
def listMean (l : List ℚ) : ℚ :=
  l.sum / l.length

/-- The aggregation loop of `_get_support_resistances`: skip empty buckets,
skip buckets with fewer than three members, append the mean of the rest. -/
def aggregateBuckets (buckets : List (List ℚ)) : List ℚ :=
  buckets.foldl
    (fun result val =>
      if val = [] then result
      else if val.length < 3 then result
      else result ++ [listMean val])
    []

/-- Embedding of `_get_support_resistances(values, direction, closest)`:
peak detection with the default `rounded=3`, proximity grouping, then the
aggregation loop; `none` propagates a peak-detection failure. -/
def get_support_resistances (values : List ℚ) (direction : Direction) (closest : ℚ) :
    Option (List ℚ) :=
  (peaks_detection values 3 direction).map
    (fun peaks => aggregateBuckets (group_values_nearest peaks closest))

/-- Embedding of `get_resistances(values, closest)`. -/
def get_resistances (values : List ℚ) (closest : ℚ) : Option (List ℚ) :=
  get_support_resistances values Direction.up closest

/-- Embedding of `get_supports(values, closest)`. -/
def get_supports (values : List ℚ) (closest : ℚ) : Option (List ℚ) :=
  get_support_resistances values Direction.down closest

/-! Helper lemmas about the sort, the grouping fold and the aggregation fold. -/

lemma sortAsc_perm (l : List ℚ) : (sortAsc l).Perm l :=
  List.perm_insertionSort _ l

lemma sortAsc_sorted (l : List ℚ) : (sortAsc l).Sorted (· ≤ ·) :=
  List.sorted_insertionSort _ l

lemma zip_tail_fst_le :
    ∀ l : List ℚ, l.Sorted (· ≤ ·) → ∀ p ∈ l.zip l.tail, p.1 ≤ p.2 := by
  intro l
  induction l with
  | nil => intro _ p hp; simp at hp
  | cons a t ih =>
    intro hs p hp
    cases t with
    | nil => simp at hp
    | cons b t2 =>
      simp only [List.tail_cons, List.zip_cons_cons, List.mem_cons] at hp
      rcases hp with rfl | hp
      · exact List.rel_of_sorted_cons hs b (List.mem_cons_self b t2)
      · exact ih hs.of_cons p hp

lemma mem_insertIfAbsent {y v : ℚ} {l : List ℚ} :
    y ∈ insertIfAbsent v l ↔ y = v ∨ y ∈ l := by
  unfold insertIfAbsent
  by_cases h : v ∈ l
  · rw [if_pos h]
    constructor
    · exact fun hy => Or.inr hy
    · rintro (rfl | hy)
      exacts [h, hy]
  · rw [if_neg h]
    simp only [List.mem_append, List.mem_singleton]
    tauto

lemma nodup_insertIfAbsent {v : ℚ} {l : List ℚ} (hl : l.Nodup) :
    (insertIfAbsent v l).Nodup := by
  unfold insertIfAbsent
  by_cases h : v ∈ l
  · rwa [if_pos h]
  · rw [if_neg h]
    refine hl.append (List.nodup_singleton v) ?_
    intro x hx hxv
    rw [List.mem_singleton] at hxv
    subst hxv
    exact h hx

lemma foldl_groupStep_mem (c : ℚ) (S : List ℚ) :
    ∀ (ps : List (ℚ × ℚ)) (il : List ℚ) (ol : List (List ℚ)),
      (∀ p ∈ ps, p.1 ∈ S ∧ p.2 ∈ S) →
      (∀ x ∈ il, x ∈ S) →
      (∀ b ∈ ol, ∀ x ∈ b, x ∈ S) →
      (∀ x ∈ (ps.foldl (groupStep c) (il, ol)).1, x ∈ S) ∧
      (∀ b ∈ (ps.foldl (groupStep c) (il, ol)).2, ∀ x ∈ b, x ∈ S) := by
  intro ps
  induction ps with
  | nil => intro il ol _ hil hol; exact ⟨hil, hol⟩
  | cons p ps ih =>
    intro il ol hps hil hol
    rw [List.foldl_cons]
    have hp := hps p (List.mem_cons_self p ps)
    have hps2 : ∀ q ∈ ps, q.1 ∈ S ∧ q.2 ∈ S :=
      fun q hq => hps q (List.mem_cons_of_mem p hq)
    by_cases hc : |p.2 - p.1| < c
    · rw [show groupStep c (il, ol) p = (insertIfAbsent p.2 (insertIfAbsent p.1 il), ol) from
        by simp [groupStep, hc]]
      refine ih _ _ hps2 ?_ hol
      intro x hx
      rcases mem_insertIfAbsent.mp hx with rfl | hx1
      · exact hp.2
      · rcases mem_insertIfAbsent.mp hx1 with rfl | hx2
        · exact hp.1
        · exact hil x hx2
    · rw [show groupStep c (il, ol) p = ([], ol ++ [il]) from by simp [groupStep, hc]]
      refine ih _ _ hps2 (by simp) ?_
      intro b hb
      rcases List.mem_append.mp hb with hb | hb
      · exact hol b hb
      · rw [List.mem_singleton] at hb
        subst hb
        exact hil

lemma foldl_groupStep_nodup (c : ℚ) :
    ∀ (ps : List (ℚ × ℚ)) (il : List ℚ) (ol : List (List ℚ)),
      il.Nodup → (∀ b ∈ ol, b.Nodup) →
      ((ps.foldl (groupStep c) (il, ol)).1).Nodup ∧
      (∀ b ∈ (ps.foldl (groupStep c) (il, ol)).2, b.Nodup) := by
  intro ps
  induction ps with
  | nil => intro il ol hil hol; exact ⟨hil, hol⟩
  | cons p ps ih =>
    intro il ol hil hol
    rw [List.foldl_cons]
    by_cases hc : |p.2 - p.1| < c
    · rw [show groupStep c (il, ol) p = (insertIfAbsent p.2 (insertIfAbsent p.1 il), ol) from
        by simp [groupStep, hc]]
      exact ih _ _ (nodup_insertIfAbsent (nodup_insertIfAbsent hil)) hol
    · rw [show groupStep c (il, ol) p = ([], ol ++ [il]) from by simp [groupStep, hc]]
      refine ih _ _ List.nodup_nil ?_
      intro b hb
      rcases List.mem_append.mp hb with hb | hb
      · exact hol b hb
      · rw [List.mem_singleton] at hb
        subst hb
        exact hil

lemma foldl_groupStep_length (c : ℚ) :
    ∀ (ps : List (ℚ × ℚ)) (il : List ℚ) (ol : List (List ℚ)),
      ((ps.foldl (groupStep c) (il, ol)).2).length
        = ol.length + ps.countP (fun p => decide (c ≤ |p.2 - p.1|)) := by
  intro ps
  induction ps with
  | nil => intro il ol; simp
  | cons p ps ih =>
    intro il ol
    rw [List.foldl_cons, List.countP_cons]
    by_cases hc : |p.2 - p.1| < c
    · rw [show groupStep c (il, ol) p = (insertIfAbsent p.2 (insertIfAbsent p.1 il), ol) from
        by simp [groupStep, hc]]
      rw [ih]
      simp [not_le.mpr hc]
    · rw [show groupStep c (il, ol) p = ([], ol ++ [il]) from by simp [groupStep, hc]]
      rw [ih]
      simp only [List.length_append, List.length_singleton, decide_eq_true_eq]
      rw [if_pos (not_lt.mp hc)]
      omega

lemma group_values_nearest_length (values : List ℚ) (c : ℚ) :
    (group_values_nearest values c).length
      = ((sortAsc values).zip (sortAsc values).tail).countP
          (fun p => decide (c ≤ |p.2 - p.1|)) + 1 := by
  show ((((sortAsc values).zip (sortAsc values).tail).foldl (groupStep c) ([], [])).2
      ++ [(((sortAsc values).zip (sortAsc values).tail).foldl (groupStep c) ([], [])).1]).length
    = _
  rw [List.length_append, foldl_groupStep_length]
  simp

lemma aggregateBuckets_loop :
    ∀ (bs : List (List ℚ)) (acc : List ℚ),
      bs.foldl
          (fun result val =>
            if val = [] then result
            else if val.length < 3 then result
            else result ++ [listMean val])
          acc
        = acc ++ (bs.filter (fun b => decide (3 ≤ b.length))).map listMean := by
  intro bs
  induction bs with
  | nil => intro acc; simp
  | cons b bs ih =>
    intro acc
    rw [List.foldl_cons, List.filter_cons]
    by_cases hb : b = []
    · subst hb
      rw [if_pos rfl]
      simp only [List.length_nil, decide_eq_true_eq]
      rw [if_neg (by omega)]
      exact ih acc
    · by_cases h3 : b.length < 3
      · rw [if_neg hb, if_pos h3]
        simp only [decide_eq_true_eq]
        rw [if_neg (by omega)]
        exact ih acc
      · rw [if_neg hb, if_neg h3]
        simp only [decide_eq_true_eq]
        rw [if_pos (by omega), ih, List.map_cons, List.append_assoc]
        rfl

lemma aggregateBuckets_eq (bs : List (List ℚ)) :
    aggregateBuckets bs = (bs.filter (fun b => decide (3 ≤ b.length))).map listMean := by
  have h := aggregateBuckets_loop bs []
  simpa [aggregateBuckets] using h

/-! Claim theorems. -/

/-- C1 (counterexample): on the series `[1,3,1,4,1,5,1,4,1,5,1,3,1]` with direction
`up` and closeness threshold 1, the pipeline does NOT return the single level `4`:
adjacent sorted peaks differ by exactly 1, which is not strictly less than the
threshold, so every bucket is a singleton and no bucket reaches 3 members. -/
theorem c1_counterexample :
    get_support_resistances [1, 3, 1, 4, 1, 5, 1, 4, 1, 5, 1, 3, 1] Direction.up 1
      ≠ some [4] := by
  with_unfolding_all decide

/-- C1 (amended): on `[1,3,1,4,1,5,1,4,1,5,1,3,1]` with direction `up` the detected
peaks are `[3,4,5,4,5,3]`; with threshold 1 the sorted peaks split into the three
singleton buckets `[3],[4],[5]` and no level is returned, while with threshold 2
they form the single bucket `[3,4,5]` (duplicate values collapsed by the
membership-checked insertion) whose mean `4` is the one returned level. -/
theorem c1_amended :
    peaks_detection [1, 3, 1, 4, 1, 5, 1, 4, 1, 5, 1, 3, 1] 3 Direction.up
        = some [3, 4, 5, 4, 5, 3]
    ∧ group_values_nearest [3, 4, 5, 4, 5, 3] 1 = [[3], [4], [5]]
    ∧ get_support_resistances [1, 3, 1, 4, 1, 5, 1, 4, 1, 5, 1, 3, 1] Direction.up 1
        = some []
    ∧ group_values_nearest [3, 4, 5, 4, 5, 3] 2 = [[3, 4, 5]]
    ∧ get_support_resistances [1, 3, 1, 4, 1, 5, 1, 4, 1, 5, 1, 3, 1] Direction.up 2
        = some [4] := by
  refine ⟨?_, ?_, ?_, ?_, ?_⟩ <;> with_unfolding_all decide

/-- C2 (counterexample): the buckets do not cover every input value: on `[1, 10]`
with threshold 2 both returned buckets are empty, so the input value `1` appears
in no bucket at all. -/
theorem c2_counterexample :
    group_values_nearest [1, 10] 2 = [[], []]
    ∧ ∀ b ∈ group_values_nearest [1, 10] 2, (1 : ℚ) ∉ b := by
  refine ⟨?_, ?_⟩ <;> with_unfolding_all decide

/-- C2 (amended): every value appearing in any bucket returned by
`group_values_nearest` is a value of the input list; full coverage does not hold
(a value far from both sorted neighbours is dropped, and duplicate occurrences
are collapsed), so containment is the correct direction of the contract. -/
theorem c2_amended (values : List ℚ) (closest : ℚ) (b : List ℚ) (x : ℚ)
    (hb : b ∈ group_values_nearest values closest) (hx : x ∈ b) : x ∈ values := by
  have hpairs : ∀ p ∈ (sortAsc values).zip (sortAsc values).tail,
      p.1 ∈ sortAsc values ∧ p.2 ∈ sortAsc values := by
    rintro ⟨u, w⟩ hp
    have h := List.of_mem_zip hp
    exact ⟨h.1, List.mem_of_mem_tail h.2⟩
  have hinv := foldl_groupStep_mem closest (sortAsc values)
    ((sortAsc values).zip (sortAsc values).tail) [] [] hpairs (by simp) (by simp)
  have hb2 : b ∈ (((sortAsc values).zip (sortAsc values).tail).foldl
        (groupStep closest) ([], [])).2
      ++ [(((sortAsc values).zip (sortAsc values).tail).foldl
        (groupStep closest) ([], [])).1] := hb
  rcases List.mem_append.mp hb2 with h | h
  · exact (sortAsc_perm values).subset (hinv.2 b h x hx)
  · rw [List.mem_singleton] at h
    subst h
    exact (sortAsc_perm values).subset (hinv.1 x hx)

/-- C2 (witness): on input `[1, 2]` with threshold 2 the single bucket `[1, 2]`
is returned and its member `1` is indeed an input value. -/
theorem c2_witness :
    ([1, 2] : List ℚ) ∈ group_values_nearest [1, 2] 2
    ∧ (1 : ℚ) ∈ ([1, 2] : List ℚ)
    ∧ (1 : ℚ) ∈ ([1, 2] : List ℚ) :=
  ⟨by with_unfolding_all decide, by with_unfolding_all decide,
    c2_amended [1, 2] 2 [1, 2] 1 (by with_unfolding_all decide)
      (by with_unfolding_all decide)⟩

/-- C3 (counterexample): `group_values_nearest` DOES mutate the caller's list:
`values.sort()` sorts in place, so after the call on `[2, 1]` the caller's list
holds `[1, 2]`, not the original order. -/
theorem c3_counterexample :
    (group_values_nearest_full [2, 1] 2).1 ≠ [2, 1] := by
  with_unfolding_all decide

/-- C3 (amended): after a call to `group_values_nearest` the caller's list holds
the same values as before (a permutation — nothing is added or lost) but sorted
ascending in place; callers that still need the original order must pass a copy. -/
theorem c3_amended (values : List ℚ) (closest : ℚ) :
    ((group_values_nearest_full values closest).1).Perm values
    ∧ ((group_values_nearest_full values closest).1).Sorted (· ≤ ·) := by
  have h1 : (group_values_nearest_full values closest).1 = sortAsc values := rfl
  rw [h1]
  exact ⟨sortAsc_perm values, sortAsc_sorted values⟩

/-- C4 (counterexample): on the EMPTY series `_peaks_detection` does not return an
empty peak list — it raises (modelled `none`): `min(data)` is evaluated on the
empty sequence before `find_peaks` is called and raises `ValueError`. -/
theorem c4_counterexample :
    peaks_detection ([] : List ℚ) 3 Direction.up ≠ some [] := by
  with_unfolding_all decide

/-- C4 (amended): for every direction and every rounding parameter, peak detection
on a series of length 1 or 2 returns an empty peak list without error, while on a
series of length 0 it fails (Python's `min` of an empty sequence raises). -/
theorem c4_amended (a b : ℚ) (r : ℤ) (d : Direction) :
    peaks_detection [] r d = none
    ∧ peaks_detection [a] r d = some []
    ∧ peaks_detection [a, b] r d = some [] := by
  cases d <;> refine ⟨?_, ?_, ?_⟩ <;>
    simp [peaks_detection, dirData, peakIdx, findPeaksIdx, lmLoop]

/-- C5 (code evaluation): the code performs no precondition validation at all: a
threshold `≤ 0` makes `group_values_nearest` silently return degenerate all-empty
buckets (no pair is ever "close" since `abs(..) < closest` is unsatisfiable), and
a negative `rounded` makes `_peaks_detection` return normally (rounding the peak
value `1` to tens yields `0`); no error is raised in either case. -/
theorem c5_no_validation :
    group_values_nearest [1, 2] 0 = [[], []]
    ∧ group_values_nearest [1, 2, 3] (-1) = [[], [], []]
    ∧ peaks_detection [0, 1, 0] (-1) Direction.up = some [0] := by
  refine ⟨?_, ?_, ?_⟩ <;> with_unfolding_all decide

/-- C6: the number of buckets returned by `group_values_nearest` is exactly the
number of adjacent sorted pairs whose difference is at least the threshold, plus
one; empty and singleton input produce exactly one (empty) bucket; and on
`[1,2,10,11,20]` with threshold 2 the buckets are `[[1,2],[10,11],[]]` — the
trailing empty bucket produced by the far transition before the singleton `20`
is preserved in the output. -/
theorem c6_bucket_count :
    (∀ (values : List ℚ) (closest : ℚ),
      (group_values_nearest values closest).length
        = ((sortAsc values).zip (sortAsc values).tail).countP
            (fun p => decide (closest ≤ p.2 - p.1)) + 1)
    ∧ (∀ closest : ℚ, group_values_nearest [] closest = [[]])
    ∧ (∀ v closest : ℚ, group_values_nearest [v] closest = [[]])
    ∧ group_values_nearest [1, 2, 10, 11, 20] 2 = [[1, 2], [10, 11], []] := by
  refine ⟨?_, ?_, ?_, ?_⟩
  · intro values closest
    rw [group_values_nearest_length]
    congr 1
    refine List.countP_congr ?_
    rintro ⟨u, w⟩ hp
    have h12 := zip_tail_fst_le (sortAsc values) (sortAsc_sorted values) (u, w) hp
    simp [abs_of_nonneg (sub_nonneg.mpr h12)]
  · intro closest; rfl
  · intro v closest; rfl
  · with_unfolding_all decide

/-- C7: increasing the closeness threshold never increases the number of buckets:
a pair counted as a far transition at the larger threshold is also far at the
smaller one, so the bucket count is antitone in the threshold. -/
theorem c7_threshold_mono (values : List ℚ) (t1 t2 : ℚ) (h : t1 ≤ t2) :
    (group_values_nearest values t2).length ≤ (group_values_nearest values t1).length := by
  rw [group_values_nearest_length, group_values_nearest_length]
  have mono : ∀ x ∈ (sortAsc values).zip (sortAsc values).tail,
      decide (t2 ≤ |x.2 - x.1|) = true → decide (t1 ≤ |x.2 - x.1|) = true := by
    intro x _ hx
    simp only [decide_eq_true_eq] at hx ⊢
    exact le_trans h hx
  exact Nat.add_le_add_right (List.countP_mono_left mono) 1

/-- C7 (witness): instantiation at `[1, 10]` with thresholds `1 ≤ 2`. -/
theorem c7_witness :
    (1 : ℚ) ≤ 2
    ∧ (group_values_nearest [1, 10] 2).length ≤ (group_values_nearest [1, 10] 1).length :=
  ⟨by norm_num, c7_threshold_mono [1, 10] 1 2 (by norm_num)⟩

/-- C8: on every nonempty series the aggregator raises no error and returns
exactly the arithmetic means of the buckets with at least 3 members, in bucket
order (empty and under-3 buckets skipped); in particular it returns `some []`,
not an error, when no bucket qualifies. -/
theorem c8_aggregator (values : List ℚ) (direction : Direction) (closest : ℚ)
    (h : values ≠ []) :
    ∃ peaks, peaks_detection values 3 direction = some peaks
      ∧ get_support_resistances values direction closest
          = some (((group_values_nearest peaks closest).filter
              (fun b => decide (3 ≤ b.length))).map listMean) := by
  have hdata : dirData values direction ≠ [] := by
    cases direction
    · simpa [dirData] using h
    · simpa [dirData, List.map_eq_nil_iff] using h
  obtain ⟨d, ds, hd⟩ := List.exists_cons_of_ne_nil hdata
  refine ⟨(peakIdx (d :: ds)).map (fun p => |roundTo ((d :: ds).getD p 0) 3|), ?_, ?_⟩
  · simp only [peaks_detection, hd]
    rw [if_pos (by norm_num : (3 : ℤ) ≠ 0)]
  · simp only [get_support_resistances, peaks_detection, hd]
    rw [if_pos (by norm_num : (3 : ℤ) ≠ 0)]
    rw [Option.map_some']
    rw [aggregateBuckets_eq]

/-- C8 (witness): instantiation on the nonempty series `[1,3,1,4,1,5,1,4,1,5,1,3,1]`
with direction `up` and threshold 2. -/
theorem c8_witness :
    ([1, 3, 1, 4, 1, 5, 1, 4, 1, 5, 1, 3, 1] : List ℚ) ≠ []
    ∧ ∃ peaks,
        peaks_detection ([1, 3, 1, 4, 1, 5, 1, 4, 1, 5, 1, 3, 1] : List ℚ) 3 Direction.up
          = some peaks
        ∧ get_support_resistances ([1, 3, 1, 4, 1, 5, 1, 4, 1, 5, 1, 3, 1] : List ℚ)
              Direction.up 2
            = some (((group_values_nearest peaks 2).filter
                (fun b => decide (3 ≤ b.length))).map listMean) :=
  ⟨List.cons_ne_nil _ _,
    c8_aggregator [1, 3, 1, 4, 1, 5, 1, 4, 1, 5, 1, 3, 1] Direction.up 2
      (List.cons_ne_nil _ _)⟩

/-- C9: on a nonempty series, when the rounding parameter is `0` (the falsy int)
`_peaks_detection` returns the integer index positions of the peaks, and for any
nonzero (truthy) rounding parameter it returns the direction-corrected, rounded,
absolute peak values instead. -/
theorem c9_rounded_branch (values : List ℚ) (direction : Direction)
    (h : values ≠ []) :
    peaks_detection values 0 direction
        = some ((peakIdx (dirData values direction)).map (fun p => (p : ℚ)))
    ∧ ∀ r : ℤ, r ≠ 0 →
        peaks_detection values r direction
          = some ((peakIdx (dirData values direction)).map
              (fun p => |roundTo ((dirData values direction).getD p 0) r|)) := by
  have hdata : dirData values direction ≠ [] := by
    cases direction
    · simpa [dirData] using h
    · simpa [dirData, List.map_eq_nil_iff] using h
  obtain ⟨d, ds, hd⟩ := List.exists_cons_of_ne_nil hdata
  constructor
  · simp only [peaks_detection, hd]
    rw [if_neg (by norm_num : ¬(0 : ℤ) ≠ 0)]
  · intro r hr
    simp only [peaks_detection, hd]
    rw [if_pos hr]

/-- C9 (witness): instantiation on `[0, 2, 0]` (peak at index 1) with the falsy
rounding parameter `0`. -/
theorem c9_witness :
    ([0, 2, 0] : List ℚ) ≠ []
    ∧ peaks_detection ([0, 2, 0] : List ℚ) 0 Direction.up
        = some ((peakIdx (dirData [0, 2, 0] Direction.up)).map (fun p => (p : ℚ))) :=
  ⟨List.cons_ne_nil _ _,
    (c9_rounded_branch [0, 2, 0] Direction.up (List.cons_ne_nil _ _)).1⟩

/-- C10: every bucket returned by `group_values_nearest` contains pairwise
distinct values: the membership-checked insertion collapses duplicate input
values within a bucket into a single element. -/
theorem c10_bucket_nodup (values : List ℚ) (closest : ℚ) (b : List ℚ)
    (hb : b ∈ group_values_nearest values closest) : b.Nodup := by
  have hinv := foldl_groupStep_nodup closest
    ((sortAsc values).zip (sortAsc values).tail) [] [] List.nodup_nil (by simp)
  have hb2 : b ∈ (((sortAsc values).zip (sortAsc values).tail).foldl
        (groupStep closest) ([], [])).2
      ++ [(((sortAsc values).zip (sortAsc values).tail).foldl
        (groupStep closest) ([], [])).1] := hb
  rcases List.mem_append.mp hb2 with h | h
  · exact hinv.2 b h
  · rw [List.mem_singleton] at h
    subst h
    exact hinv.1

/-- C10 (witness): on input `[2, 3]` with threshold 2 the returned bucket `[2, 3]`
has no duplicate values. -/
theorem c10_witness :
    ([2, 3] : List ℚ) ∈ group_values_nearest [2, 3] 2
    ∧ ([2, 3] : List ℚ).Nodup :=
  ⟨by with_unfolding_all decide,
    c10_bucket_nodup [2, 3] 2 [2, 3] (by with_unfolding_all decide)⟩

end AnalyseChart
